import Mathlib

/-!
Shallow embedding of the poisoning-attack optimization core of the secml
repository, centred on `src/secml/adv/attacks/poisoning/c_attack_poisoning.py`
(class `CAttackPoisoning`) and
`src/secml/ml/classifiers/gradients/c_classifier_gradient_svm.py`
(class `CClassifierGradientSVM`).

Modelling conventions:
  * Feature vectors and matrices are lists of scalars over a linear ordered
    field `α` (floating point idealized as exact arithmetic); theorems that
    need concrete evaluation instantiate `α := ℚ`.
  * External collaborators (the CArray/CDataset containers, the classifier
    fit/predict machinery, the loss functions, scipy's linear solvers and the
    single-point numerical optimizer) are not part of the repository's staged
    sources; they enter the model as abstract parameters or environment
    fields, exactly at the interface the core calls them through.
  * The SHA1 content fingerprint `CArray.sha1()` is modelled as the matrix
    content itself (an injective fingerprint): two calls see the same hash
    exactly when the poisoning feature matrix has the same content.
  * Python exceptions are modelled with `Except String`; a raised exception
    is `Except.error`.
-/

namespace SecML

/-- Feature vector: one row of a feature matrix. -/
abbrev Vec (α : Type) : Type := List α

/-- Feature matrix: a list of rows. -/
abbrev Mat (α : Type) : Type := List (List α)

variable {α : Type} [LinearOrderedField α] [DecidableEq α]

/-- Sum of squared entries of a vector (the square of its Euclidean norm). -/
def sumSq (v : Vec α) : α := (v.map (fun x => x * x)).sum

/-- Squared flattened Euclidean (Frobenius) distance between two equally
shaped matrices: the square of `(xc_prv - xc).norm_2d()` at line 550 of
`c_attack_poisoning.py`.  The loop guard `delta > 0` on the norm holds
exactly when `0 < matDiffSq` holds on the square, so the model compares the
square to stay inside the field `α`. -/
def matDiffSq (a b : Mat α) : α :=
  (List.zipWith (fun r s => sumSq (List.zipWith (fun x y => x - y) r s)) a b).sum

/-- Identity of the unfitted classifier that a retraining starts from:
`self._solver_clf` (the surrogate classifier prepared by the parent class
`CAttack`) or `self._classifier` (the true targeted classifier). -/
inductive BaseClf : Type where
  | surrogate : BaseClf
  | target : BaseClf
  deriving DecidableEq

/-- Identity of the base training set a retraining appends the poisoning
points to: `self.surrogate_data` or `self._training_data`. -/
inductive BaseTr : Type where
  | surrogateData : BaseTr
  | trainingData : BaseTr
  deriving DecidableEq

/-- A classifier produced by `_update_poisoned_clf`: a deep copy of `base`
fitted on the dataset `tr` augmented with the poisoning points `(xc, yc)`
(line 301: `tr = tr.append(CDataset(self._xc, self._yc))`, line 317:
`self._poisoned_clf.fit(tr)`). -/
structure FittedClf (α : Type) where
  base : BaseClf
  tr : BaseTr
  xc : Mat α
  yc : List ℕ
  deriving DecidableEq

/-- Mutable per-attack-instance state of `CAttackPoisoning`: the cached
fingerprint `self._xc_hash`, the cached retrained classifier
`self._poisoned_clf`, the poisoning points `self._xc` / `self._yc`, the
active point index `self._idx` and the iterative solver's warm start
`self._warm_start`. -/
structure PState (α : Type) where
  xcHash : Option (Mat α)
  poisonedClf : Option (FittedClf α)
  selfXc : Mat α
  selfYc : List ℕ
  selfIdx : Option ℕ
  warmStart : Option (Vec α)
  deriving DecidableEq

/-- Fresh state of a newly constructed attack object (`__init__`, lines
104-108: `self._xc_hash = None`, `self._xc = None`, ..., and line 125:
`self._warm_start = None`); the poisoning points start empty. -/
def initialState (α : Type) [LinearOrderedField α] : PState α :=
  ⟨none, none, [], [], none, none⟩

/-- CAttackPoisoning._update_poisoned_clf (lines 273-319).  `clfOv` / `trOv`
are the optional `clf` / `tr` overrides; the fingerprint is persisted only
when both are absent (`xc_hash_is_valid`).  Returns the classifier, the new
state and whether a retraining (deep copy plus refit) happened — the Bool is
the retraining-count probe.  The `train_normalizer` flag and the returned
augmented dataset only affect the external fit/predict machinery and carry
no information beyond `FittedClf`, so they are not duplicated here. -/
def updatePoisonedClf (st : PState α) (clfOv : Option BaseClf) (trOv : Option BaseTr) :
    Option (FittedClf α) × PState α × Bool :=
  let xcHashIsValid := clfOv.isNone && trOv.isNone
  let clfBase := clfOv.getD BaseClf.surrogate
  let trBase := trOv.getD BaseTr.surrogateData
  let xcHash := st.selfXc
  if st.xcHash = none ∨ st.xcHash ≠ some xcHash then
    let fitted : FittedClf α := ⟨clfBase, trBase, st.selfXc, st.selfYc⟩
    (some fitted,
     { st with xcHash := if xcHashIsValid then some xcHash else none,
               poisonedClf := some fitted },
     true)
  else (st.poisonedClf, st, false)

/-- Environment of external collaborators consumed by the core (spec section
6): the classifier/loss/array capabilities and the single-point numerical
optimizer.  `gradFkXc` is the abstract method `_gradient_fk_xc` (line 420,
implemented per classifier family outside this class); `norm` is
`CArray.norm` (array library); `objValue` is the composition of
`clf.predict` and the attacker loss that `_objective_function` averages;
`solverEvals ci x0` is the sequence of candidate points at which the
external solver evaluates the objective/gradient callbacks during the
`ci`-th `_run` call started at `x0`, and `solverResult ci x0` the optimum it
returns; `initXc` / `initYc` are the randomly initialized poisoning points
(`_rnd_init_poisoning_points`, external randomness); `fOpt` is the final
objective value `self._f_opt` recorded by `_solution_from_solver`. -/
structure PEnv (α : Type) where
  nClasses : ℕ
  gradFkXc : Vec α → ℕ → FittedClf α → Option ℕ → Vec α
  norm : Vec α → α
  objValue : FittedClf α → Bool → α
  solverEvals : ℕ → Vec α → List (Vec α)
  solverResult : ℕ → Vec α → Vec α
  initXc : Mat α
  initYc : List ℕ
  fOpt : α

/-- CAttackPoisoning._objective_function (lines 325-367).  The input `xc` is
already in `atleast_2d` form (a matrix with the candidate as its rows); more
than one row raises `TypeError`.  When `self._idx` is `None` the index
defaults to 0.  The candidate is written into row `idx` of `self._xc`, the
poisoned classifier is refreshed through the cache, and the mean loss (or
mean error when `acc` is set) on the validation set — external predict/loss
machinery, abstracted as `env.objValue` — is returned. -/
def objectiveFunction (env : PEnv α) (st : PState α) (xc : Mat α) (acc : Bool) :
    Except String (α × PState α) :=
  let idx := st.selfIdx.getD 0
  if 1 < xc.length then Except.error "xc is not a single sample!"
  else
    let st1 := { st with selfXc := st.selfXc.set idx (xc.headD []) }
    let r := updatePoisonedClf st1 none none
    match r.1 with
    | some clf => Except.ok (env.objValue clf acc, r.2.1)
    | none => Except.error "poisoned classifier not available"

/-- Entrywise sum of two vectors. -/
def vecAdd (a b : Vec α) : Vec α := List.zipWith (fun x y => x + y) a b

/-- Raw (pre-normalization) gradient computed by
`_objective_function_gradient` (lines 399-412): a single `_gradient_fk_xc`
call in the binary case (`clf.n_classes <= 2`), and the sum over classes of
per-class calls otherwise, starting from `CArray.zeros((xc.size,))`. -/
def rawGrad (env : PEnv α) (clf : FittedClf α) (row : Vec α) (yv : ℕ) : Vec α :=
  if env.nClasses ≤ 2 then env.gradFkXc row yv clf none
  else (List.range env.nClasses).foldl
    (fun acc c => vecAdd acc (env.gradFkXc row yv clf (some c)))
    (List.replicate row.length 0)

/-- Normalization step of `_objective_function_gradient` (lines 414-418):
with `normalization` set, divide by the gradient norm when it is positive,
otherwise return the raw gradient unchanged. -/
def normalizeIf (normFn : Vec α → α) (normalization : Bool) (g : Vec α) : Vec α :=
  if normalization then
    let nrm := normFn g
    if 0 < nrm then g.map (fun x => x / nrm) else g
  else g

/-- CAttackPoisoning._objective_function_gradient (lines 369-418): single
sample check, active index defaulting to 0, write into `self._xc`, cache
refresh, raw gradient (`rawGrad`), then normalization (`normalizeIf`). -/
def objectiveFunctionGradient (env : PEnv α) (st : PState α) (xc : Mat α)
    (normalization : Bool) : Except String (Vec α × PState α) :=
  if 1 < xc.length then Except.error "x is not a single sample!"
  else
    let idx := st.selfIdx.getD 0
    let st1 := { st with selfXc := st.selfXc.set idx (xc.headD []) }
    let r := updatePoisonedClf st1 none none
    match r.1 with
    | some clf =>
        Except.ok
          (normalizeIf env.norm normalization
            (rawGrad env clf (r.2.1.selfXc.getD idx []) (r.2.1.selfYc.getD idx 0)), r.2.1)
    | none => Except.error "poisoned classifier not available"

/-- Observable events of a `run`: poisoning-point initialization, start of a
round of the outer loop (one iteration of the `while` at line 528), the
single-point optimization of one index (`self._run(xc, yc, idx=idx)` at line
538), and a retraining performed by `_update_poisoned_clf` (recording which
base classifier and base training set were used). -/
inductive Event (α : Type) where
  | pointsInit : Event α
  | roundStart : Event α
  | optimize (idx : ℕ) : Event α
  | refit (base : BaseClf) (tr : BaseTr) : Event α
  deriving DecidableEq

/-- State effect of one objective/gradient evaluation that the external
solver performs at candidate `v` during `_run`: the candidate is written
into row `self._idx` of `self._xc` and the cache is refreshed through the
canonical (no-override) path — the shared prologue of
`_objective_function` (lines 338-350) and `_objective_function_gradient`
(lines 384-392).  The value handed back to the solver is abstracted into
`PEnv.solverEvals` / `PEnv.solverResult`. -/
def evalAt (st : PState α) (v : Vec α) : PState α × List (Event α) :=
  let idx := st.selfIdx.getD 0
  let st1 := { st with selfXc := st.selfXc.set idx v }
  let r := updatePoisonedClf st1 none none
  (r.2.1, if r.2.2 then [Event.refit BaseClf.surrogate BaseTr.surrogateData] else [])

/-- Sequence of solver evaluations inside one `_run` call. -/
def evalSteps (st : PState α) : List (Vec α) → PState α × List (Event α)
  | [] => (st, [])
  | v :: rest =>
      let q := evalAt st v
      let r := evalSteps q.1 rest
      (r.1, q.2 ++ r.2)

/-- CAttackPoisoning._run (lines 435-465): deep-copies the point set into
`self._xc`, stores `self._yc` and `self._idx`, re-creates the solver
(`_init_solver`, which resets `self._warm_start = None`, line 223), lets the
external solver optimize starting from `x0 = xc[idx]` (evaluating the
objective/gradient at `env.solverEvals ci x0`), and returns the optimized
point `env.solverResult ci x0`.  The solver is `maximize` for an
indiscriminate attack (`y_target` unset) and `minimize` for a targeted one
(lines 458-461); both are external and abstracted by the same
`solverEvals`/`solverResult` pair.  `ci` numbers the `_run` calls of the
enclosing `run` so that distinct calls may show distinct solver behavior. -/
def runSingle (env : PEnv α) (ci : ℕ) (xc : Mat α) (yc : List ℕ) (idx : ℕ)
    (st : PState α) : Vec α × PState α × List (Event α) :=
  let st1 := { st with selfXc := xc, selfYc := yc, selfIdx := some idx, warmStart := none }
  let x0 := xc.getD idx []
  let fin := evalSteps st1 (env.solverEvals ci x0)
  (env.solverResult ci x0, fin.1, Event.optimize idx :: fin.2)

/-- Body of the per-round `for i in range(self._n_points)` loop (lines
534-548), for the remaining loop counters `l`: each step optimizes index
`idx = n_points - i - 1` ("this is to optimize the last points first") and
writes the result back into row `idx` of `xc`.  The per-point accuracy
logging (lines 544-548) reads `self._poisoned_clf` only for a log message
and changes no state, so it leaves no event. -/
def roundSteps (env : PEnv α) (np : ℕ) (yc : List ℕ) :
    List ℕ → ℕ → Mat α → PState α → Mat α × PState α × List (Event α)
  | [], _, xc, st => (xc, st, [])
  | i :: rest, ci, xc, st =>
      let idx := np - i - 1
      let r1 := runSingle env ci xc yc idx st
      let r2 := roundSteps env np yc rest (ci + 1) (xc.set idx r1.1) r1.2.1
      (r2.1, r2.2.1, r1.2.2 ++ r2.2.2)

/-- One full round of the outer loop: the `for` loop over all point indices. -/
def oneRound (env : PEnv α) (np : ℕ) (yc : List ℕ) (ci : ℕ) (xc : Mat α)
    (st : PState α) : Mat α × PState α × List (Event α) :=
  let r := roundSteps env np yc (List.range np) ci xc st
  (r.1, r.2.1, Event.roundStart :: r.2.2)

/-- Outer `while delta > 0 and k < max_iter` loop (lines 528-555), with
`remaining = max_iter - k` rounds still allowed.  `delta` starts at 1.0, so
the first round always runs when the budget allows; after a round, the loop
continues only when the flattened distance between the point matrix before
and after the round is positive (`0 < matDiffSq`). -/
def outerRounds (env : PEnv α) (np : ℕ) (yc : List ℕ) :
    ℕ → ℕ → Mat α → PState α → Mat α × PState α × List (Event α)
  | 0, _, _xc, st => (_xc, st, [])
  | remaining + 1, ci, xc, st =>
      let r := oneRound env np yc ci xc st
      if 0 < matDiffSq xc r.1 then
        let r2 := outerRounds env np yc remaining (ci + np) r.1 r.2.1
        (r2.1, r2.2.1, r.2.2 ++ r2.2.2)
      else r

/-- Overwrite of the first `ini.length` entries of `l` by `ini` (the
warm-start re-seeding `xc[0:ds_init.num_samples, :] = ds_init.X` at lines
515-517). -/
def overwriteHead {β : Type} (dflt : β) (l ini : List β) : List β :=
  (List.range ini.length).foldl (fun m i => m.set i (ini.getD i dflt)) l

/-- Value of `self.init_type` (line 505-512). -/
inductive InitType : Type where
  | random : InitType
  | lossBased : InitType
  | unknown : InitType
  deriving DecidableEq

/-- Which classifier produced the predictions/scores that `run` returns:
the unmodified targeted classifier `self._classifier` (early exit, line
500), or a classifier retrained by `_update_poisoned_clf` (line 559/564),
or no classifier at all (`self._poisoned_clf` still `None`, which would make
the final `clf.predict` crash). -/
inductive PredFrom (α : Type) where
  | original : PredFrom α
  | fitted (clf : FittedClf α) : PredFrom α
  | unavailable : PredFrom α
  deriving DecidableEq

/-- Result of `run`: whose predictions/scores are reported, the returned
poisoned dataset `CDataset(xc, yc)` (or the pass-through `ds_init` on early
exit), the final objective value, the event trace and the final attack
state. -/
structure RunResult (α : Type) where
  predFrom : PredFrom α
  advDs : Option (Mat α × List ℕ)
  fObj : α
  events : List (Event α)
  finalState : PState α
  deriving DecidableEq

/-- Main path of CAttackPoisoning.run (lines 519-569), after the points
`xc1`/`yc1` have been initialized: force `max_iter = 1` when
`n_points == 1` (lines 523-524), run the outer rounds, then retrain through
`_update_poisoned_clf(clf=self._classifier, tr=self._training_data)`
(lines 559-561) and report that classifier's predictions (line 564)
together with `CDataset(xc, yc)` and `self._f_opt`. -/
def runMain (env : PEnv α) (st : PState α) (np : ℕ) (xc1 : Mat α) (yc1 : List ℕ)
    (maxIter : ℕ) : RunResult α :=
  let effIter := if np = 1 then 1 else maxIter
  let r := outerRounds env np yc1 effIter 0 xc1 st
  let fin := updatePoisonedClf r.2.1 (some BaseClf.target) (some BaseTr.trainingData)
  ⟨(match fin.1 with
    | some c => PredFrom.fitted c
    | none => PredFrom.unavailable),
   some (r.1, yc1), env.fOpt,
   Event.pointsInit ::
     (r.2.2 ++ if fin.2.2 then [Event.refit BaseClf.target BaseTr.trainingData] else []),
   fin.2.1⟩

/-- Dispatch part of CAttackPoisoning.run (lines 471-518).  Early exit when
`self._n_points` is `None` or 0 (lines 498-502): the unmodified
classifier's predictions, the pass-through `ds_init` and objective value 0,
with no state change and no initialization.  Otherwise: initialize points
(random strategy, abstracted as `env.initXc`/`env.initYc`; `loss_based`
raises `NotImplementedError` through `_loss_based_init_poisoning_points`,
any other value raises at line 511), overwrite the leading points with
`ds_init` (lines 515-517), and delegate the optimization rounds and the
finalization to `runMain`. -/
def run (env : PEnv α) (st : PState α) (nPoints : Option ℕ) (initType : InitType)
    (dsInit : Option (Mat α × List ℕ)) (maxIter : ℕ) : Except String (RunResult α) :=
  match nPoints with
  | none => Except.ok ⟨PredFrom.original, dsInit, 0, [], st⟩
  | some np =>
    if np = 0 then Except.ok ⟨PredFrom.original, dsInit, 0, [], st⟩
    else
      match initType with
      | InitType.random =>
        let xc1 := match dsInit with
          | none => env.initXc
          | some d => overwriteHead [] env.initXc d.1
        let yc1 := match dsInit with
          | none => env.initYc
          | some d => overwriteHead 0 env.initYc d.2
        Except.ok (runMain env st np xc1 yc1 maxIter)
      | InitType.lossBased => Except.error "NotImplementedError"
      | InitType.unknown =>
          Except.error "Unknown poisoning point initialization strategy."

/-- Number of outer-loop rounds recorded in a trace. -/
def roundCount (evs : List (Event α)) : ℕ :=
  evs.countP (fun e => match e with | Event.roundStart => true | _ => false)

/-- Indices of the single-point optimizations of a trace, in order. -/
def optIndices (evs : List (Event α)) : List ℕ :=
  evs.filterMap (fun e => match e with | Event.optimize i => some i | _ => none)

/-- Number of retrainings from a given base classifier recorded in a trace. -/
def refitCount (b : BaseClf) (evs : List (Event α)) : ℕ :=
  evs.countP (fun e => match e with | Event.refit b' _ => decide (b' = b) | _ => false)

/-- Update of a single entry of a feature matrix (one feature of one point). -/
def setEntry (m : Mat α) (i j : ℕ) (v : α) : Mat α :=
  m.set i ((m.getD i []).set j v)

/-- Fitted SVM as seen by `CClassifierGradientSVM`
(`c_classifier_gradient_svm.py`): the dual coefficients `clf.alpha`, the
regularization bound `clf.C` and the support vectors `clf.sv` (already
normalized). -/
structure SVMClf (α : Type) where
  alpha : List α
  C : α
  sv : Mat α
  deriving DecidableEq

/-- CClassifierGradientSVM._s (lines 12-17) at the default tolerance
`tol = 1e-6`: indices of the margin support vectors, the training points
whose dual coefficient satisfies `tol <= |alpha_i| <= C - tol`. -/
def marginS (clf : SVMClf α) : List ℕ :=
  (List.range clf.alpha.length).filter
    (fun i =>
      decide ((1 / 1000000 : α) ≤ |clf.alpha.getD i 0|) &&
      decide (|clf.alpha.getD i 0| ≤ clf.C - 1 / 1000000))

/-- CClassifierGradientSVM._xs (lines 19-26): `None` when there is no margin
support vector (`s.size == 0`), otherwise the pair of the margin support
vectors `clf.sv[s, :]` and their indices. -/
def svmXs (clf : SVMClf α) : Option (Mat α × List ℕ) :=
  let s := marginS clf
  if s = [] then none
  else some (s.map (fun i => clf.sv.getD i []), s)

/-- CClassifierGradientSVM.hessian (lines 28-42).  The statement
`xs, sv_idx = self._xs(clf)` unpacks the result of `_xs`; when `_xs`
returned `None` this raises `TypeError: cannot unpack non-iterable NoneType
object`, modelled as the `Except.error`.  Otherwise the `(s+1) x (s+1)`
matrix starts as all ones (`CArray.ones`), its leading `s x s` block is the
kernel Gram matrix of the margin support vectors (`svm.kernel.k(xs)`,
abstracted by the pairwise kernel function `kern`) and its bottom-right
entry is set to 0. -/
def svmHessian (kern : Vec α → Vec α → α) (clf : SVMClf α) : Except String (Mat α) :=
  match svmXs clf with
  | none => Except.error "TypeError: cannot unpack non-iterable NoneType object"
  | some (xs, _) =>
    let s := xs.length
    Except.ok ((List.range (s + 1)).map (fun i =>
      (List.range (s + 1)).map (fun j =>
        if i < s ∧ j < s then kern (xs.getD i []) (xs.getD j [])
        else if i = s ∧ j = s then 0 else 1)))

/-- CAttackPoisoning._compute_grad_inv (lines 624-637).  `pinv2` and
`matInv` stand for `scipy.linalg.pinv2` and `scipy.linalg.inv` (external
library routines, passed as parameters so that theorems can assume exactly
their documented contracts).  When `|det H| < 1e-6` the pseudo-inverse is
used, otherwise the true inverse; the result is
`(-(G * Hinv)).mulVec grad_loss_params` (the stored `self._d_params_xc`
matrix is the intermediate `-(G * Hinv)` and carries no extra content). -/
def computeGradInv {d m : ℕ}
    (pinv2 matInv : Matrix (Fin m) (Fin m) α → Matrix (Fin m) (Fin m) α)
    (G : Matrix (Fin d) (Fin m) α) (H : Matrix (Fin m) (Fin m) α)
    (gradLossParams : Fin m → α) : Fin d → α :=
  let dt := H.det
  let Hinv := if |dt| < 1 / 1000000 then pinv2 H else matInv H
  let gradMat := -(G * Hinv)
  gradMat.mulVec gradLossParams

/-- CAttackPoisoning._compute_grad_solve (lines 639-646): solve
`H v = grad_loss_params` with `scipy.linalg.solve` (external routine
`solveLin`; the `sym_pos=True` flag is a performance hint to scipy) and
return `-G.dot(v)`. -/
def computeGradSolve {d m : ℕ}
    (solveLin : Matrix (Fin m) (Fin m) α → (Fin m → α) → (Fin m → α))
    (G : Matrix (Fin d) (Fin m) α) (H : Matrix (Fin m) (Fin m) α)
    (gradLossParams : Fin m → α) : Fin d → α :=
  -(G.mulVec (solveLin H gradLossParams))

/-- CAttackPoisoning._compute_grad_solve_iterative (lines 648-668).  `cg` is
`scipy.sparse.linalg.cg` (external conjugate-gradient routine): it receives
`H`, the right-hand side and the optional warm start `x0`, and returns the
approximate solution together with the integer convergence code (0 means
converged).  The function has no raising path: whatever `cg` returns, it
warns when the code is nonzero (the returned Bool), stores the solution as
the new warm start for the next call, and returns `-G.dot(v)`. -/
def computeGradSolveIterative {d m : ℕ}
    (cg : Matrix (Fin m) (Fin m) α → (Fin m → α) → Option (Fin m → α) → (Fin m → α) × ℤ)
    (G : Matrix (Fin d) (Fin m) α) (H : Matrix (Fin m) (Fin m) α)
    (gradLossParams : Fin m → α) (warmStart : Option (Fin m → α)) :
    (Fin d → α) × Option (Fin m → α) × Bool :=
  let vc := match warmStart with
    | none => cg H gradLossParams none
    | some w => cg H gradLossParams (some w)
  (-(G.mulVec vc.1), some vc.1, decide (vc.2 ≠ 0))

/-- Invariant of the canonical cache path: whenever a fingerprint is cached,
the cached classifier exists and was produced by a canonical retraining
(deep copy of the surrogate classifier fitted on the surrogate data plus
poisoning points).  It holds for a freshly constructed attack object
(`self._xc_hash = None`) and is preserved by every canonical
`_update_poisoned_clf()` call. -/
def SurrogateCacheInv (st : PState α) : Prop :=
  st.xcHash ≠ none →
    ∃ c : FittedClf α, st.poisonedClf = some c ∧
      c.base = BaseClf.surrogate ∧ c.tr = BaseTr.surrogateData

/-- Concrete classifier produced by the canonical retraining in the runs of
`envQ` below. -/
def sClf : FittedClf ℚ := ⟨BaseClf.surrogate, BaseTr.surrogateData, [[0]], [1]⟩

/-- Concrete environment: one-dimensional features, a single initial
poisoning point `[0]` with label 1, and a solver that evaluates the
objective once at its starting point and returns that point unchanged. -/
def envQ : PEnv ℚ where
  nClasses := 2
  gradFkXc := fun _ _ _ _ => [3, 4]
  norm := fun _ => 0
  objValue := fun _ _ => 0
  solverEvals := fun _ x0 => [x0]
  solverResult := fun _ x0 => x0
  initXc := [[0]]
  initYc := [1]
  fOpt := 0

/-- Attack state after the single canonical evaluation of a 1-point `envQ`
run: fingerprint cached for `[[0]]`, surrogate-based classifier cached. -/
def stQ : PState ℚ := ⟨some [[0]], some sClf, [[0]], [1], some 0, none⟩

/-- Full result of `run envQ (initialState ℚ) (some 1) InitType.random none
maxIter` (any `maxIter`): one round, one optimization, one canonical
(surrogate) retraining, and a finalization that performs no retraining and
reports the cached surrogate-based classifier. -/
def runResQ : RunResult ℚ :=
  ⟨PredFrom.fitted sClf, some ([[0]], [1]), 0,
   [Event.pointsInit, Event.roundStart, Event.optimize 0,
    Event.refit BaseClf.surrogate BaseTr.surrogateData], stQ⟩

/-- Concrete kernel for the SVM examples. -/
def kernW : Vec ℚ → Vec ℚ → ℚ := fun _ _ => 0

/-- Fitted SVM with a single support vector whose dual coefficient sits at
the bound `C` (an error vector): it has no margin support vector. -/
def svmNoMargin : SVMClf ℚ := ⟨[1], 1, [[0]]⟩

/-- Concrete 1×1 hypergradient inputs for the solver-equivalence example. -/
def HW : Matrix (Fin 1) (Fin 1) ℚ := !![2]

def GW : Matrix (Fin 1) (Fin 1) ℚ := !![3]

def bW : Fin 1 → ℚ := ![4]

def pinvW : Matrix (Fin 1) (Fin 1) ℚ → Matrix (Fin 1) (Fin 1) ℚ := fun _ => !![1 / 2]

def solveW : Matrix (Fin 1) (Fin 1) ℚ → (Fin 1 → ℚ) → (Fin 1 → ℚ) := fun _ _ => ![2]

def cgW : Matrix (Fin 1) (Fin 1) ℚ → (Fin 1 → ℚ) → Option (Fin 1 → ℚ) → (Fin 1 → ℚ) × ℤ :=
  fun _ _ _ => (![2], 0)

/-- Concrete Euclidean norm table for the gradient-normalization example:
the raw gradient `[3, 4]` has norm 5, its rescaling `[3/5, 4/5]` norm 1. -/
def normW : Vec ℚ → ℚ := fun v => if v = [3, 4] then 5 else if v = [3 / 5, 4 / 5] then 1 else 0

/-- Concrete environment for the objective/gradient examples: the abstract
classifier-specific gradient always returns `[3, 4]`. -/
def envG : PEnv ℚ where
  nClasses := 2
  gradFkXc := fun _ _ _ _ => [3, 4]
  norm := normW
  objValue := fun _ _ => 0
  solverEvals := fun _ _ => []
  solverResult := fun _ x0 => x0
  initXc := []
  initYc := []
  fOpt := 0

/-- Fresh state with one two-feature poisoning point and no active index. -/
def stG : PState ℚ := ⟨none, none, [[0, 0]], [5], none, none⟩

/-- State after one objective/gradient evaluation of `envG` at `[[1, 2]]`. -/
def stG' : PState ℚ :=
  ⟨some [[1, 2]], some ⟨BaseClf.surrogate, BaseTr.surrogateData, [[1, 2]], [5]⟩,
   [[1, 2]], [5], none, none⟩

/-! Helper lemmas about the cache `_update_poisoned_clf`. -/

theorem updatePoisonedClf_hit (st : PState α) (clfOv : Option BaseClf)
    (trOv : Option BaseTr) (h : st.xcHash = some st.selfXc) :
    updatePoisonedClf st clfOv trOv = (st.poisonedClf, st, false) := by
  unfold updatePoisonedClf
  rw [if_neg]
  push_neg
  exact ⟨by simp [h], by simp [h]⟩

theorem updatePoisonedClf_miss (st : PState α) (clfOv : Option BaseClf)
    (trOv : Option BaseTr) (h : st.xcHash ≠ some st.selfXc) :
    updatePoisonedClf st clfOv trOv =
      (some ⟨clfOv.getD BaseClf.surrogate, trOv.getD BaseTr.surrogateData,
             st.selfXc, st.selfYc⟩,
       { st with
           xcHash := if clfOv.isNone && trOv.isNone then some st.selfXc else none,
           poisonedClf :=
             some ⟨clfOv.getD BaseClf.surrogate, trOv.getD BaseTr.surrogateData,
                   st.selfXc, st.selfYc⟩ },
       true) := by
  unfold updatePoisonedClf
  rw [if_pos (Or.inr h)]

theorem updatePoisonedClf_selfXc (st : PState α) (clfOv : Option BaseClf)
    (trOv : Option BaseTr) :
    (updatePoisonedClf st clfOv trOv).2.1.selfXc = st.selfXc := by
  by_cases h : st.xcHash = some st.selfXc
  · rw [updatePoisonedClf_hit st clfOv trOv h]
  · rw [updatePoisonedClf_miss st clfOv trOv h]

theorem updatePoisonedClf_selfYc (st : PState α) (clfOv : Option BaseClf)
    (trOv : Option BaseTr) :
    (updatePoisonedClf st clfOv trOv).2.1.selfYc = st.selfYc := by
  by_cases h : st.xcHash = some st.selfXc
  · rw [updatePoisonedClf_hit st clfOv trOv h]
  · rw [updatePoisonedClf_miss st clfOv trOv h]

theorem updatePoisonedClf_selfIdx (st : PState α) (clfOv : Option BaseClf)
    (trOv : Option BaseTr) :
    (updatePoisonedClf st clfOv trOv).2.1.selfIdx = st.selfIdx := by
  by_cases h : st.xcHash = some st.selfXc
  · rw [updatePoisonedClf_hit st clfOv trOv h]
  · rw [updatePoisonedClf_miss st clfOv trOv h]

theorem updateCanonical_hash (st : PState α) :
    (updatePoisonedClf st none none).2.1.xcHash = some st.selfXc := by
  by_cases h : st.xcHash = some st.selfXc
  · rw [updatePoisonedClf_hit st none none h]
    exact h
  · rw [updatePoisonedClf_miss st none none h]
    simp

theorem updateCanonical_fst (st : PState α) :
    (updatePoisonedClf st none none).1 = (updatePoisonedClf st none none).2.1.poisonedClf := by
  by_cases h : st.xcHash = some st.selfXc
  · rw [updatePoisonedClf_hit st none none h]
  · rw [updatePoisonedClf_miss st none none h]

theorem updateCanonical_inv (st : PState α) (h : SurrogateCacheInv st) :
    SurrogateCacheInv (updatePoisonedClf st none none).2.1 := by
  by_cases hh : st.xcHash = some st.selfXc
  · rw [updatePoisonedClf_hit st none none hh]
    exact h
  · rw [updatePoisonedClf_miss st none none hh]
    intro _
    exact ⟨_, rfl, rfl, rfl⟩

/-! Helper lemmas about lists and the squared norms. -/

theorem getD_set_self {β : Type} (l : List β) (i : ℕ) (x d : β) (h : i < l.length) :
    (l.set i x).getD i d = x := by
  simp [List.getD_eq_getElem?_getD, List.getElem?_set_self', h]

theorem rowSet_ne (l : List α) (j : ℕ) (v : α) (hj : j < l.length)
    (hv : v ≠ l.getD j 0) : l.set j v ≠ l := by
  intro he
  exact hv (by rw [← getD_set_self l j v 0 hj, he])

theorem setEntry_ne (m : Mat α) (i j : ℕ) (v : α) (hi : i < m.length)
    (hj : j < (m.getD i []).length) (hv : v ≠ (m.getD i []).getD j 0) :
    setEntry m i j v ≠ m := by
  intro he
  have hrow : (m.getD i []).set j v = m.getD i [] := by
    have h2 := congrArg (fun mm : Mat α => mm.getD i []) he
    simp only [setEntry] at h2
    rwa [getD_set_self m i ((m.getD i []).set j v) [] hi] at h2
  exact rowSet_ne (m.getD i []) j v hj hv hrow

theorem sumSq_cons (x : α) (t : Vec α) : sumSq (x :: t) = x * x + sumSq t := by
  simp [sumSq]

theorem sumSq_nonneg (v : Vec α) : 0 ≤ sumSq v := by
  induction v with
  | nil => simp [sumSq]
  | cons x t ih =>
      rw [sumSq_cons]
      exact add_nonneg (mul_self_nonneg x) ih

theorem sumSq_eq_zero_iff (v : Vec α) : sumSq v = 0 ↔ ∀ x ∈ v, x = 0 := by
  induction v with
  | nil => simp [sumSq]
  | cons x t ih =>
      rw [sumSq_cons,
        add_eq_zero_iff_of_nonneg (mul_self_nonneg x) (sumSq_nonneg t)]
      simp [mul_self_eq_zero, ih]

theorem sumSq_map_div (v : Vec α) (c : α) :
    sumSq (v.map (fun x => x / c)) = sumSq v / (c * c) := by
  induction v with
  | nil => simp [sumSq]
  | cons x t ih =>
      rw [List.map_cons, sumSq_cons, sumSq_cons, ih, div_mul_div_comm, add_div]

/-! Helper lemmas about the solver-evaluation and round traces. -/

theorem evalAt_hash (st : PState α) (v : Vec α) :
    (evalAt st v).1.xcHash = some (evalAt st v).1.selfXc := by
  simp only [evalAt]
  rw [updateCanonical_hash, updatePoisonedClf_selfXc]

theorem evalAt_inv (st : PState α) (v : Vec α) (h : SurrogateCacheInv st) :
    SurrogateCacheInv (evalAt st v).1 := by
  simp only [evalAt]
  exact updateCanonical_inv _ h

theorem evalAt_events (st : PState α) (v : Vec α) :
    ∀ e ∈ (evalAt st v).2, e = Event.refit BaseClf.surrogate BaseTr.surrogateData := by
  intro e he
  simp only [evalAt] at he
  split at he
  · simpa using he
  · simp at he

theorem evalSteps_inv (l : List (Vec α)) (st : PState α) (h : SurrogateCacheInv st) :
    SurrogateCacheInv (evalSteps st l).1 := by
  induction l generalizing st with
  | nil => exact h
  | cons v rest ih => exact ih _ (evalAt_inv st v h)

theorem evalSteps_hash (l : List (Vec α)) (st : PState α) (hl : l ≠ []) :
    (evalSteps st l).1.xcHash = some (evalSteps st l).1.selfXc := by
  induction l generalizing st with
  | nil => exact absurd rfl hl
  | cons v rest ih =>
      cases rest with
      | nil => simpa [evalSteps] using evalAt_hash st v
      | cons w ws => simpa [evalSteps] using ih (evalAt st v).1 (by simp)

theorem evalSteps_events (l : List (Vec α)) (st : PState α) :
    ∀ e ∈ (evalSteps st l).2,
      e = Event.refit BaseClf.surrogate BaseTr.surrogateData := by
  induction l generalizing st with
  | nil => simp [evalSteps]
  | cons v rest ih =>
      intro e he
      simp only [evalSteps, List.mem_append] at he
      rcases he with he | he
      · exact evalAt_events st v e he
      · exact ih (evalAt st v).1 e he

theorem runSingle_state_eq (env : PEnv α) (ci : ℕ) (xc : Mat α) (yc : List ℕ)
    (idx : ℕ) (st : PState α) :
    (runSingle env ci xc yc idx st).2.1 =
      (evalSteps { st with selfXc := xc, selfYc := yc, selfIdx := some idx,
                           warmStart := none }
        (env.solverEvals ci (xc.getD idx []))).1 := rfl

theorem runSingle_hash (env : PEnv α) (ci : ℕ) (xc : Mat α) (yc : List ℕ)
    (idx : ℕ) (st : PState α) (hev : env.solverEvals ci (xc.getD idx []) ≠ []) :
    (runSingle env ci xc yc idx st).2.1.xcHash =
      some (runSingle env ci xc yc idx st).2.1.selfXc := by
  rw [runSingle_state_eq]
  exact evalSteps_hash _ _ hev

theorem runSingle_inv (env : PEnv α) (ci : ℕ) (xc : Mat α) (yc : List ℕ)
    (idx : ℕ) (st : PState α) (h : SurrogateCacheInv st) :
    SurrogateCacheInv (runSingle env ci xc yc idx st).2.1 := by
  rw [runSingle_state_eq]
  exact evalSteps_inv _ _ h

theorem runSingle_events (env : PEnv α) (ci : ℕ) (xc : Mat α) (yc : List ℕ)
    (idx : ℕ) (st : PState α) :
    ∀ e ∈ (runSingle env ci xc yc idx st).2.2,
      e = Event.optimize idx ∨
      e = Event.refit BaseClf.surrogate BaseTr.surrogateData := by
  intro e he
  simp only [runSingle, List.mem_cons] at he
  rcases he with he | he
  · exact Or.inl he
  · exact Or.inr (evalSteps_events _ _ e he)

theorem runSingle_optIndices (env : PEnv α) (ci : ℕ) (xc : Mat α) (yc : List ℕ)
    (idx : ℕ) (st : PState α) :
    optIndices (runSingle env ci xc yc idx st).2.2 = [idx] := by
  simp only [runSingle, optIndices, List.filterMap_cons]
  rw [List.filterMap_eq_nil_iff.mpr]
  intro e he
  rw [evalSteps_events _ _ e he]

theorem roundSteps_optIndices (env : PEnv α) (np : ℕ) (yc : List ℕ)
    (l : List ℕ) (ci : ℕ) (xc : Mat α) (st : PState α) :
    optIndices (roundSteps env np yc l ci xc st).2.2 =
      l.map (fun i => np - i - 1) := by
  induction l generalizing ci xc st with
  | nil => simp [roundSteps, optIndices]
  | cons i rest ih =>
      simp only [roundSteps, optIndices, List.filterMap_append, List.map_cons]
      rw [← optIndices, ← optIndices, runSingle_optIndices, ih]
      rfl

theorem roundSteps_events (env : PEnv α) (np : ℕ) (yc : List ℕ)
    (l : List ℕ) (ci : ℕ) (xc : Mat α) (st : PState α) :
    ∀ e ∈ (roundSteps env np yc l ci xc st).2.2,
      (∃ k, e = Event.optimize k) ∨
      e = Event.refit BaseClf.surrogate BaseTr.surrogateData := by
  induction l generalizing ci xc st with
  | nil => simp [roundSteps]
  | cons i rest ih =>
      intro e he
      simp only [roundSteps, List.mem_append] at he
      rcases he with he | he
      · rcases runSingle_events env ci xc yc (np - i - 1) st e he with h1 | h1
        · exact Or.inl ⟨_, h1⟩
        · exact Or.inr h1
      · exact ih _ _ _ e he

theorem roundSteps_inv (env : PEnv α) (np : ℕ) (yc : List ℕ)
    (l : List ℕ) (ci : ℕ) (xc : Mat α) (st : PState α) (h : SurrogateCacheInv st) :
    SurrogateCacheInv (roundSteps env np yc l ci xc st).2.1 := by
  induction l generalizing ci xc st with
  | nil => exact h
  | cons i rest ih => exact ih _ _ _ (runSingle_inv env ci xc yc (np - i - 1) st h)

theorem roundSteps_hash (env : PEnv α) (np : ℕ) (yc : List ℕ)
    (l : List ℕ) (ci : ℕ) (xc : Mat α) (st : PState α) (hl : l ≠ [])
    (hev : ∀ ci x0, env.solverEvals ci x0 ≠ []) :
    (roundSteps env np yc l ci xc st).2.1.xcHash =
      some (roundSteps env np yc l ci xc st).2.1.selfXc := by
  induction l generalizing ci xc st with
  | nil => exact absurd rfl hl
  | cons i rest ih =>
      cases rest with
      | nil =>
          simpa [roundSteps] using
            runSingle_hash env ci xc yc (np - i - 1) st (hev _ _)
      | cons j js => simpa [roundSteps] using ih _ _ _ (by simp)

theorem oneRound_optIndices (env : PEnv α) (np : ℕ) (yc : List ℕ) (ci : ℕ)
    (xc : Mat α) (st : PState α) :
    optIndices (oneRound env np yc ci xc st).2.2 =
      (List.range np).map (fun i => np - i - 1) := by
  simp only [oneRound, optIndices, List.filterMap_cons]
  exact roundSteps_optIndices env np yc (List.range np) ci xc st

theorem oneRound_roundCount (env : PEnv α) (np : ℕ) (yc : List ℕ) (ci : ℕ)
    (xc : Mat α) (st : PState α) :
    roundCount (oneRound env np yc ci xc st).2.2 = 1 := by
  simp only [oneRound, roundCount, List.countP_cons_of_pos]
  rw [List.countP_eq_zero.mpr]
  intro e he
  rcases roundSteps_events env np yc (List.range np) ci xc st e he with ⟨k, hk⟩ | hk <;>
    simp [hk]

theorem oneRound_targetRefits (env : PEnv α) (np : ℕ) (yc : List ℕ) (ci : ℕ)
    (xc : Mat α) (st : PState α) :
    refitCount BaseClf.target (oneRound env np yc ci xc st).2.2 = 0 := by
  simp only [oneRound, refitCount]
  rw [List.countP_eq_zero.mpr]
  intro e he
  rcases List.mem_cons.mp he with he1 | he2
  · simp [he1]
  · rcases roundSteps_events env np yc (List.range np) ci xc st e he2 with ⟨k, hk⟩ | hk <;>
      simp [hk]

theorem oneRound_inv (env : PEnv α) (np : ℕ) (yc : List ℕ) (ci : ℕ)
    (xc : Mat α) (st : PState α) (h : SurrogateCacheInv st) :
    SurrogateCacheInv (oneRound env np yc ci xc st).2.1 :=
  roundSteps_inv env np yc (List.range np) ci xc st h

theorem oneRound_hash (env : PEnv α) (np : ℕ) (yc : List ℕ) (ci : ℕ)
    (xc : Mat α) (st : PState α) (hnp : np ≠ 0)
    (hev : ∀ ci x0, env.solverEvals ci x0 ≠ []) :
    (oneRound env np yc ci xc st).2.1.xcHash =
      some (oneRound env np yc ci xc st).2.1.selfXc := by
  exact roundSteps_hash env np yc (List.range np) ci xc st
    (by simpa [List.range_eq_nil] using hnp) hev

theorem outerRounds_roundCount_le (env : PEnv α) (np : ℕ) (yc : List ℕ)
    (rem ci : ℕ) (xc : Mat α) (st : PState α) :
    roundCount (outerRounds env np yc rem ci xc st).2.2 ≤ rem := by
  induction rem generalizing ci xc st with
  | zero => simp [outerRounds, roundCount]
  | succ r ih =>
      simp only [outerRounds]
      split
      · simp only [roundCount, List.countP_append]
        have h1 := oneRound_roundCount env np yc ci xc st
        simp only [roundCount] at h1
        rw [h1]
        have h2 := ih (ci + np) (oneRound env np yc ci xc st).1
          (oneRound env np yc ci xc st).2.1
        simp only [roundCount] at h2
        omega
      · rw [oneRound_roundCount]
        omega

theorem outerRounds_one_events (env : PEnv α) (np : ℕ) (yc : List ℕ) (ci : ℕ)
    (xc : Mat α) (st : PState α) :
    (outerRounds env np yc 1 ci xc st).2.2 = (oneRound env np yc ci xc st).2.2 := by
  simp only [outerRounds]
  split
  · simp
  · rfl

theorem outerRounds_one_state (env : PEnv α) (np : ℕ) (yc : List ℕ) (ci : ℕ)
    (xc : Mat α) (st : PState α) :
    (outerRounds env np yc 1 ci xc st).2.1 = (oneRound env np yc ci xc st).2.1 := by
  simp only [outerRounds]
  split
  · rfl
  · rfl

theorem outerRounds_inv (env : PEnv α) (np : ℕ) (yc : List ℕ)
    (rem ci : ℕ) (xc : Mat α) (st : PState α) (h : SurrogateCacheInv st) :
    SurrogateCacheInv (outerRounds env np yc rem ci xc st).2.1 := by
  induction rem generalizing ci xc st with
  | zero => exact h
  | succ r ih =>
      simp only [outerRounds]
      split
      · exact ih _ _ _ (oneRound_inv env np yc ci xc st h)
      · exact oneRound_inv env np yc ci xc st h

theorem outerRounds_hash (env : PEnv α) (np : ℕ) (yc : List ℕ)
    (rem ci : ℕ) (xc : Mat α) (st : PState α) (hrem : rem ≠ 0) (hnp : np ≠ 0)
    (hev : ∀ ci x0, env.solverEvals ci x0 ≠ []) :
    (outerRounds env np yc rem ci xc st).2.1.xcHash =
      some (outerRounds env np yc rem ci xc st).2.1.selfXc := by
  obtain ⟨r, rfl⟩ := Nat.exists_eq_succ_of_ne_zero hrem
  clear hrem
  induction r generalizing ci xc st with
  | zero =>
      simp only [outerRounds]
      split
      · exact oneRound_hash env np yc ci xc st hnp hev
      · exact oneRound_hash env np yc ci xc st hnp hev
  | succ r2 ih =>
      rw [outerRounds.eq_2]
      split
      · exact ih _ _ _
      · exact oneRound_hash env np yc ci xc st hnp hev

theorem outerRounds_targetRefits (env : PEnv α) (np : ℕ) (yc : List ℕ)
    (rem ci : ℕ) (xc : Mat α) (st : PState α) :
    refitCount BaseClf.target (outerRounds env np yc rem ci xc st).2.2 = 0 := by
  induction rem generalizing ci xc st with
  | zero => simp [outerRounds, refitCount]
  | succ r ih =>
      simp only [outerRounds]
      split
      · simp only [refitCount, List.countP_append]
        have h1 := oneRound_targetRefits env np yc ci xc st
        have h2 := ih (ci + np) (oneRound env np yc ci xc st).1
          (oneRound env np yc ci xc st).2.1
        simp only [refitCount] at h1 h2
        omega
      · exact oneRound_targetRefits env np yc ci xc st

theorem matDiffSq_self (a : Mat α) : matDiffSq a a = 0 := by
  induction a with
  | nil => simp [matDiffSq]
  | cons r t ih =>
      have hr : sumSq (List.zipWith (fun x y => x - y) r r) = 0 := by
        induction r with
        | nil => simp [sumSq]
        | cons x s ihr => simpa [sumSq_cons] using ihr
      unfold matDiffSq at ih ⊢
      simp only [List.zipWith_cons_cons, List.sum_cons]
      rw [hr, zero_add, ih]

theorem roundCount_cons_init (evs : List (Event α)) :
    roundCount (Event.pointsInit :: evs) = roundCount evs := by
  simp [roundCount, List.countP_cons]

theorem roundCount_append (a b : List (Event α)) :
    roundCount (a ++ b) = roundCount a + roundCount b := by
  simp [roundCount, List.countP_append]

theorem optIndices_cons_init (evs : List (Event α)) :
    optIndices (Event.pointsInit :: evs) = optIndices evs := by
  simp [optIndices, List.filterMap_cons]

theorem optIndices_append (a b : List (Event α)) :
    optIndices (a ++ b) = optIndices a ++ optIndices b := by
  simp [optIndices, List.filterMap_append]

theorem refitCount_cons_init (b : BaseClf) (evs : List (Event α)) :
    refitCount b (Event.pointsInit :: evs) = refitCount b evs := by
  simp [refitCount, List.countP_cons]

theorem refitCount_append (b : BaseClf) (l1 l2 : List (Event α)) :
    refitCount b (l1 ++ l2) = refitCount b l1 + refitCount b l2 := by
  simp [refitCount, List.countP_append]

theorem run_random_eq (env : PEnv α) (st : PState α) (np : ℕ)
    (dsInit : Option (Mat α × List ℕ)) (maxIter : ℕ) (hnp : np ≠ 0) :
    run env st (some np) InitType.random dsInit maxIter =
      Except.ok (runMain env st np
        (match dsInit with
         | none => env.initXc
         | some d => overwriteHead [] env.initXc d.1)
        (match dsInit with
         | none => env.initYc
         | some d => overwriteHead 0 env.initYc d.2)
        maxIter) := by
  simp [run, hnp]

theorem runMain_events (env : PEnv α) (st : PState α) (np : ℕ) (xc1 : Mat α)
    (yc1 : List ℕ) (maxIter : ℕ) :
    (runMain env st np xc1 yc1 maxIter).events =
      Event.pointsInit ::
        ((outerRounds env np yc1 (if np = 1 then 1 else maxIter) 0 xc1 st).2.2 ++
         if (updatePoisonedClf
              (outerRounds env np yc1 (if np = 1 then 1 else maxIter) 0 xc1 st).2.1
              (some BaseClf.target) (some BaseTr.trainingData)).2.2 then
           [Event.refit BaseClf.target BaseTr.trainingData]
         else []) := rfl

/-- Claim C9: with the number of poisoning points unset (`None`) or zero,
`run` returns immediately with the unmodified classifier's predictions and
scores on the supplied evaluation data, the pass-through `ds_init` and
objective value 0, performing no retraining and no poisoning-point
initialization or optimization (empty event trace, unchanged state). -/
theorem runZeroPointsEarlyExit (env : PEnv α) (st : PState α) (it : InitType)
    (dsInit : Option (Mat α × List ℕ)) (maxIter : ℕ) :
    run env st none it dsInit maxIter =
      Except.ok ⟨PredFrom.original, dsInit, 0, [], st⟩ ∧
    run env st (some 0) it dsInit maxIter =
      Except.ok ⟨PredFrom.original, dsInit, 0, [], st⟩ :=
  ⟨rfl, rfl⟩

/-- Claim C5: within every round of the outer optimization loop over `np`
poisoning points, the point indices are optimized in strictly decreasing
order — the trace of single-point optimizations is `np-1, np-2, ..., 0`;
in particular with 3 poisoning points the per-round order is 2, 1, 0. -/
theorem oneRoundOptimizesInReverse (env : PEnv α) (np : ℕ) (yc : List ℕ)
    (ci : ℕ) (xc : Mat α) (st : PState α) :
    optIndices (oneRound env np yc ci xc st).2.2 =
      (List.range np).map (fun i => np - i - 1) ∧
    List.Pairwise (fun a b => b < a) (optIndices (oneRound env np yc ci xc st).2.2) ∧
    (np = 3 → optIndices (oneRound env np yc ci xc st).2.2 = [2, 1, 0]) := by
  refine ⟨oneRound_optIndices env np yc ci xc st, ?_, ?_⟩
  · rw [oneRound_optIndices, List.pairwise_map]
    refine List.Pairwise.imp_of_mem ?_ (List.pairwise_lt_range np)
    intro a b _ hb hab
    have hb' := List.mem_range.mp hb
    omega
  · intro h3
    subst h3
    rw [oneRound_optIndices]
    decide

/-- Claim C6 (amended): the outer loop of `run` executes at most `max_iter`
full rounds except when exactly one poisoning point exists, in which case
exactly one round — a single one-point optimization call — is performed
regardless of the supplied `max_iter` (so at most `max maxIter 1` rounds);
and the loop stops as soon as the flattened squared Euclidean distance
between the poisoning matrix before and after a round is exactly zero. -/
theorem runRoundBudgetAmended (env : PEnv α) (st : PState α) (np maxIter : ℕ)
    (dsInit : Option (Mat α × List ℕ)) (r : RunResult α)
    (hrun : run env st (some np) InitType.random dsInit maxIter = Except.ok r) :
    (roundCount r.events ≤ (if np = 1 then 1 else maxIter)) ∧
    (np = 1 → roundCount r.events = 1 ∧ optIndices r.events = [0]) ∧
    (∀ (rem ci : ℕ) (xc : Mat α) (yc : List ℕ) (st' : PState α),
      matDiffSq xc (oneRound env np yc ci xc st').1 = 0 →
      outerRounds env np yc (rem + 1) ci xc st' = oneRound env np yc ci xc st') := by
  have hstop : ∀ (rem ci : ℕ) (xc : Mat α) (yc : List ℕ) (st' : PState α),
      matDiffSq xc (oneRound env np yc ci xc st').1 = 0 →
      outerRounds env np yc (rem + 1) ci xc st' = oneRound env np yc ci xc st' := by
    intro rem ci xc yc st' h0
    rw [outerRounds.eq_2]
    simp only [h0, lt_irrefl, if_false]
  by_cases hnp : np = 0
  · subst hnp
    simp only [run] at hrun
    rw [if_pos trivial, Except.ok.injEq] at hrun
    subst hrun
    refine ⟨by simp [roundCount], by simp, hstop⟩
  · rw [run_random_eq env st np dsInit maxIter hnp, Except.ok.injEq] at hrun
    subst hrun
    rw [runMain_events]
    set yc1 := (match dsInit with
      | none => env.initYc
      | some d => overwriteHead 0 env.initYc d.2) with hyc1
    set xc1 := (match dsInit with
      | none => env.initXc
      | some d => overwriteHead [] env.initXc d.1) with hxc1
    set finEvs := (if (updatePoisonedClf
          (outerRounds env np yc1 (if np = 1 then 1 else maxIter) 0 xc1 st).2.1
          (some BaseClf.target) (some BaseTr.trainingData)).2.2 then
        [Event.refit BaseClf.target BaseTr.trainingData]
      else ([] : List (Event α))) with hfinEvs
    have hfinR : roundCount finEvs = 0 := by
      rw [hfinEvs]
      split <;> simp [roundCount]
    refine ⟨?_, ?_, hstop⟩
    · rw [roundCount_cons_init, roundCount_append, hfinR]
      have h1 := outerRounds_roundCount_le env np yc1
        (if np = 1 then 1 else maxIter) 0 xc1 st
      omega
    · intro h1
      subst h1
      constructor
      · rw [roundCount_cons_init, roundCount_append, hfinR]
        have h2 := congrArg roundCount (outerRounds_one_events env 1 yc1 0 xc1 st)
        have h3 := oneRound_roundCount env 1 yc1 0 xc1 st
        simp only [reduceIte]
        omega
      · rw [optIndices_cons_init, optIndices_append]
        have hz : optIndices finEvs = [] := by
          rw [hfinEvs]
          split <;> simp [optIndices]
        rw [hz]
        simp only [reduceIte]
        rw [outerRounds_one_events, oneRound_optIndices]
        decide

/-- Claim C1 (code behavior at the failing input family): on a run of a
freshly constructed attack (`self._xc_hash = None`) with at least one
poisoning point, at least one allowed round, and a solver that evaluates
the objective at least once per single-point optimization, the finalization
call `_update_poisoned_clf(clf=self._classifier, tr=self._training_data)`
finds the cached fingerprint equal to the current one and therefore
performs no retraining at all: no retraining from the true (target)
classifier ever happens during the run, and the predictions that `run`
returns come from the cached classifier, which is a deep copy of the
surrogate classifier fitted on the surrogate data — contradicting the
specified finalization behavior. -/
theorem runFinalizationSkipsTargetRetraining (env : PEnv α) (st : PState α)
    (np maxIter : ℕ) (dsInit : Option (Mat α × List ℕ)) (r : RunResult α)
    (hnp : np ≠ 0)
    (hiter : np = 1 ∨ maxIter ≠ 0)
    (hfresh : st.xcHash = none)
    (hev : ∀ ci x0, env.solverEvals ci x0 ≠ [])
    (hrun : run env st (some np) InitType.random dsInit maxIter = Except.ok r) :
    refitCount BaseClf.target r.events = 0 ∧
    ∃ c : FittedClf α, r.predFrom = PredFrom.fitted c ∧
      c.base = BaseClf.surrogate ∧ c.tr = BaseTr.surrogateData := by
  rw [run_random_eq env st np dsInit maxIter hnp, Except.ok.injEq] at hrun
  subst hrun
  set yc1 := (match dsInit with
    | none => env.initYc
    | some d => overwriteHead 0 env.initYc d.2) with hyc1
  set xc1 := (match dsInit with
    | none => env.initXc
    | some d => overwriteHead [] env.initXc d.1) with hxc1
  have heff : (if np = 1 then 1 else maxIter) ≠ 0 := by
    rcases hiter with h | h
    · simp [h]
    · by_cases h1 : np = 1 <;> simp [h1, h]
  have hinv0 : SurrogateCacheInv st := fun hne => absurd hfresh hne
  have hinv : SurrogateCacheInv
      (outerRounds env np yc1 (if np = 1 then 1 else maxIter) 0 xc1 st).2.1 :=
    outerRounds_inv env np yc1 _ 0 xc1 st hinv0
  have hhash := outerRounds_hash env np yc1
    (if np = 1 then 1 else maxIter) 0 xc1 st heff hnp hev
  have hfin := updatePoisonedClf_hit
    (outerRounds env np yc1 (if np = 1 then 1 else maxIter) 0 xc1 st).2.1
    (some BaseClf.target) (some BaseTr.trainingData) hhash
  obtain ⟨c, hc, hcb, hct⟩ := hinv (by rw [hhash]; exact Option.some_ne_none _)
  constructor
  · rw [runMain_events, hfin]
    simp only [Bool.false_eq_true, if_false, List.append_nil]
    rw [refitCount_cons_init]
    exact outerRounds_targetRefits env np yc1 _ 0 xc1 st
  · refine ⟨c, ?_, hcb, hct⟩
    show (match (updatePoisonedClf
        (outerRounds env np yc1 (if np = 1 then 1 else maxIter) 0 xc1 st).2.1
        (some BaseClf.target) (some BaseTr.trainingData)).1 with
      | some c => PredFrom.fitted c
      | none => PredFrom.unavailable) = PredFrom.fitted c
    rw [hfin, hc]

theorem evalAtQ :
    evalAt (⟨none, none, [[0]], [1], some 0, none⟩ : PState ℚ) [0] =
      (stQ, [Event.refit BaseClf.surrogate BaseTr.surrogateData]) := by
  simp [evalAt, updatePoisonedClf, stQ, sClf]

theorem evalStepsQ :
    evalSteps (⟨none, none, [[0]], [1], some 0, none⟩ : PState ℚ) [[0]] =
      (stQ, [Event.refit BaseClf.surrogate BaseTr.surrogateData]) := by
  simp [evalSteps, evalAtQ]

theorem runSingleQ :
    runSingle envQ 0 [[0]] [1] 0 (initialState ℚ) =
      ([0], stQ,
       [Event.optimize 0, Event.refit BaseClf.surrogate BaseTr.surrogateData]) := by
  simp [runSingle, envQ, initialState, evalStepsQ]

theorem oneRoundQ :
    oneRound envQ 1 [1] 0 [[0]] (initialState ℚ) =
      ([[0]], stQ,
       [Event.roundStart, Event.optimize 0,
        Event.refit BaseClf.surrogate BaseTr.surrogateData]) := by
  simp [oneRound, roundSteps, runSingleQ]

theorem outerRoundsQ :
    outerRounds envQ 1 [1] 1 0 [[0]] (initialState ℚ) =
      ([[0]], stQ,
       [Event.roundStart, Event.optimize 0,
        Event.refit BaseClf.surrogate BaseTr.surrogateData]) := by
  simp only [outerRounds]
  rw [oneRoundQ]
  rw [matDiffSq_self]
  simp

theorem runQ (mi : ℕ) :
    run envQ (initialState ℚ) (some 1) InitType.random none mi =
      Except.ok runResQ := by
  rw [run_random_eq envQ (initialState ℚ) 1 none mi one_ne_zero]
  simp only [runMain, reduceIte]
  rw [show envQ.initXc = [[0]] from rfl, show envQ.initYc = [1] from rfl]
  rw [outerRoundsQ]
  rw [updatePoisonedClf_hit stQ (some BaseClf.target) (some BaseTr.trainingData) rfl]
  simp [runResQ, stQ, sClf, envQ]

/-- Claim C3: a canonical cache access with an unchanged poisoning-point
matrix triggers no deep copy and no refit and returns the cached classifier
with the state unchanged; changing any single feature of any poisoning
point makes the next canonical access refit exactly once (it refits, and
the immediately following access does not). -/
theorem cacheRefitExactlyOnChange (st : PState α) (i j : ℕ) (v : α)
    (hi : i < st.selfXc.length) (hj : j < (st.selfXc.getD i []).length)
    (hv : v ≠ (st.selfXc.getD i []).getD j 0) :
    updatePoisonedClf (updatePoisonedClf st none none).2.1 none none =
      ((updatePoisonedClf st none none).1,
       (updatePoisonedClf st none none).2.1, false) ∧
    (updatePoisonedClf
        { (updatePoisonedClf st none none).2.1 with
            selfXc := setEntry st.selfXc i j v } none none).2.2 = true ∧
    (updatePoisonedClf
        (updatePoisonedClf
          { (updatePoisonedClf st none none).2.1 with
              selfXc := setEntry st.selfXc i j v } none none).2.1 none none).2.2 =
      false := by
  have h1 : (updatePoisonedClf st none none).2.1.xcHash =
      some (updatePoisonedClf st none none).2.1.selfXc := by
    rw [updateCanonical_hash, updatePoisonedClf_selfXc]
  refine ⟨?_, ?_, ?_⟩
  · rw [updatePoisonedClf_hit _ none none h1, updateCanonical_fst]
  · have hne : ({ (updatePoisonedClf st none none).2.1 with
        selfXc := setEntry st.selfXc i j v } : PState α).xcHash ≠
        some (setEntry st.selfXc i j v) := by
      show (updatePoisonedClf st none none).2.1.xcHash ≠ some (setEntry st.selfXc i j v)
      rw [updateCanonical_hash]
      intro hcon
      exact setEntry_ne st.selfXc i j v hi hj hv (Option.some.inj hcon).symm
    rw [updatePoisonedClf_miss _ none none hne]
  · have hne : ({ (updatePoisonedClf st none none).2.1 with
        selfXc := setEntry st.selfXc i j v } : PState α).xcHash ≠
        some (setEntry st.selfXc i j v) := by
      show (updatePoisonedClf st none none).2.1.xcHash ≠ some (setEntry st.selfXc i j v)
      rw [updateCanonical_hash]
      intro hcon
      exact setEntry_ne st.selfXc i j v hi hj hv (Option.some.inj hcon).symm
    have h3 := updateCanonical_hash
      ({ (updatePoisonedClf st none none).2.1 with
          selfXc := setEntry st.selfXc i j v } : PState α)
    rw [updatePoisonedClf_hit _ none none (by
      rw [h3, updatePoisonedClf_selfXc])]

/-- Helper: the concrete error-vector SVM has no margin support vector. -/
theorem marginS_svmNoMargin : marginS svmNoMargin = [] := by
  have h2 : ¬(|(1 : ℚ)| ≤ 1 - 1 / 1000000) := by norm_num
  simp [marginS, svmNoMargin, h2]

/-- Claim C2 (counterexample): for the fitted SVM whose only dual
coefficient sits at the bound `C` there is no margin support vector, and
`hessian` raises a `TypeError` (unpacking the `None` returned by `_xs`)
instead of returning a size-zero result object. -/
theorem svmHessianNoMargin_counterexample :
    marginS svmNoMargin = [] ∧
    svmHessian kernW svmNoMargin =
      Except.error "TypeError: cannot unpack non-iterable NoneType object" := by
  refine ⟨marginS_svmNoMargin, ?_⟩
  simp [svmHessian, svmXs, marginS_svmNoMargin]

/-- Claim C2 (amended): for every fitted SVM with no margin support vector,
`_s` returns a size-zero index array, `_xs` returns `None` rather than a
pair, and `hessian` consequently fails with a `TypeError` while unpacking —
it does not return a size-zero Hessian, so the caller can only detect the
no-margin case via the exception (or by checking `_xs` itself). -/
theorem svmHessianFailsWithoutMarginPoints (kern : Vec α → Vec α → α)
    (clf : SVMClf α) (hm : marginS clf = []) :
    svmXs clf = none ∧
    svmHessian kern clf =
      Except.error "TypeError: cannot unpack non-iterable NoneType object" := by
  have hx : svmXs clf = none := by simp [svmXs, hm]
  exact ⟨hx, by simp [svmHessian, hx]⟩

theorem svmHessianFailsWithoutMarginPoints_witness :
    svmXs svmNoMargin = none ∧
    svmHessian kernW svmNoMargin =
      Except.error "TypeError: cannot unpack non-iterable NoneType object" :=
  svmHessianFailsWithoutMarginPoints kernW svmNoMargin marginS_svmNoMargin

/-- Claim C8: the iterative hypergradient solve is total — whatever the
conjugate-gradient routine returns (converged or not), it returns the
gradient `-G·v` computed from the approximate solution `v` and never
raises; the warning flag is set exactly when the convergence code is
nonzero; and the warm-start vector is overwritten with the newly computed
solution in every call. -/
theorem iterativeSolveWarnsAndStoresWarmStart {d m : ℕ}
    (cg : Matrix (Fin m) (Fin m) α → (Fin m → α) → Option (Fin m → α) → (Fin m → α) × ℤ)
    (G : Matrix (Fin d) (Fin m) α) (H : Matrix (Fin m) (Fin m) α)
    (b : Fin m → α) (w : Option (Fin m → α)) :
    (computeGradSolveIterative cg G H b w).1 = -(G.mulVec (cg H b w).1) ∧
    (computeGradSolveIterative cg G H b w).2.1 = some (cg H b w).1 ∧
    ((computeGradSolveIterative cg G H b w).2.2 = true ↔ (cg H b w).2 ≠ 0) := by
  rcases w with _ | w0 <;> simp [computeGradSolveIterative]

/-- Claim C4: for an invertible (symmetric) Hessian `H`, a Jacobian `G` and
a parameter-space loss gradient `b`, the three hypergradient strategies
return the same feature-space gradient `-G·H⁻¹·b`.  The external linear
algebra routines enter through their contracts: `scipy.linalg.inv` and
`scipy.linalg.pinv2` return the inverse on an invertible input, and the
direct and conjugate-gradient solvers return a solution of `H v = b`
(solver tolerance idealized to zero, so "equal up to solver tolerance"
becomes exact equality). -/
theorem hypergradStrategiesAgree {d m : ℕ}
    (pinv2 matInv : Matrix (Fin m) (Fin m) α → Matrix (Fin m) (Fin m) α)
    (solveLin : Matrix (Fin m) (Fin m) α → (Fin m → α) → (Fin m → α))
    (cg : Matrix (Fin m) (Fin m) α → (Fin m → α) → Option (Fin m → α) → (Fin m → α) × ℤ)
    (G : Matrix (Fin d) (Fin m) α) (H : Matrix (Fin m) (Fin m) α)
    (b : Fin m → α) (w : Option (Fin m → α))
    (hdet : IsUnit H.det) (hsym : H.IsSymm)
    (hpinv : pinv2 H = H⁻¹) (hinv : matInv H = H⁻¹)
    (hsolve : H.mulVec (solveLin H b) = b)
    (hcg : H.mulVec (cg H b w).1 = b) :
    computeGradInv pinv2 matInv G H b = -(G.mulVec (H⁻¹.mulVec b)) ∧
    computeGradSolve solveLin G H b = -(G.mulVec (H⁻¹.mulVec b)) ∧
    (computeGradSolveIterative cg G H b w).1 = -(G.mulVec (H⁻¹.mulVec b)) := by
  have hsolved : ∀ v : Fin m → α, H.mulVec v = b → v = H⁻¹.mulVec b := by
    intro v hvb
    have h := congrArg (fun u => H⁻¹.mulVec u) hvb
    simpa [Matrix.mulVec_mulVec, Matrix.nonsing_inv_mul H hdet,
      Matrix.one_mulVec] using h
  refine ⟨?_, ?_, ?_⟩
  · have hbranch : (if |H.det| < 1 / 1000000 then pinv2 H else matInv H) = H⁻¹ := by
      split
      · exact hpinv
      · exact hinv
    simp only [computeGradInv, hbranch, Matrix.neg_mulVec, ← Matrix.mulVec_mulVec]
  · simp only [computeGradSolve, hsolved (solveLin H b) hsolve]
  · have hv := hsolved (cg H b w).1 hcg
    rcases w with _ | w0 <;> simp only [computeGradSolveIterative] <;> rw [hv]

theorem hypergradStrategiesAgree_witness :
    pinvW HW = HW⁻¹ ∧
    HW.mulVec (solveW HW bW) = bW ∧
    computeGradInv pinvW pinvW GW HW bW = -(GW.mulVec (HW⁻¹.mulVec bW)) ∧
    computeGradSolve solveW GW HW bW = -(GW.mulVec (HW⁻¹.mulVec bW)) ∧
    (computeGradSolveIterative cgW GW HW bW none).1 = -(GW.mulVec (HW⁻¹.mulVec bW)) := by
  have hmul : HW * !![(1 : ℚ) / 2] = 1 := by
    ext i k
    fin_cases i
    fin_cases k
    norm_num [HW, Matrix.mul_apply]
  have hpinv : pinvW HW = HW⁻¹ := by
    rw [Matrix.inv_eq_right_inv hmul]
    rfl
  have hdet : IsUnit HW.det := by
    rw [show HW.det = 2 from by simp [HW, Matrix.det_fin_one]]
    exact isUnit_iff_ne_zero.mpr (by norm_num)
  have hsym : HW.IsSymm := by
    ext i k
    fin_cases i
    fin_cases k
    rfl
  have hsolve : HW.mulVec (solveW HW bW) = bW := by
    funext i
    fin_cases i
    norm_num [HW, bW, solveW, Matrix.mulVec, Matrix.dotProduct]
  have hcg : HW.mulVec (cgW HW bW none).1 = bW := by
    funext i
    fin_cases i
    norm_num [HW, bW, cgW, Matrix.mulVec, Matrix.dotProduct]
  have hmain := hypergradStrategiesAgree pinvW pinvW solveW cgW GW HW bW none
    hdet hsym hpinv hpinv hsolve hcg
  exact ⟨hpinv, hsolve, hmain.1, hmain.2.1, hmain.2.2⟩

theorem objectiveFunction_eval (env : PEnv α) (st : PState α) (xc : Mat α)
    (acc : Bool) (hlen : ¬ 1 < xc.length)
    (hmiss : st.xcHash ≠ some (st.selfXc.set (st.selfIdx.getD 0) (xc.headD []))) :
    objectiveFunction env st xc acc =
      Except.ok
        (env.objValue
          ⟨BaseClf.surrogate, BaseTr.surrogateData,
           st.selfXc.set (st.selfIdx.getD 0) (xc.headD []), st.selfYc⟩ acc,
         { st with
             selfXc := st.selfXc.set (st.selfIdx.getD 0) (xc.headD []),
             xcHash := some (st.selfXc.set (st.selfIdx.getD 0) (xc.headD [])),
             poisonedClf :=
               some ⟨BaseClf.surrogate, BaseTr.surrogateData,
                 st.selfXc.set (st.selfIdx.getD 0) (xc.headD []), st.selfYc⟩ }) := by
  simp only [objectiveFunction]
  rw [if_neg hlen]
  rw [updatePoisonedClf_miss _ none none hmiss]
  rfl

theorem objectiveFunctionGradient_eval (env : PEnv α) (st : PState α) (xc : Mat α)
    (nb : Bool) (hlen : ¬ 1 < xc.length)
    (hmiss : st.xcHash ≠ some (st.selfXc.set (st.selfIdx.getD 0) (xc.headD []))) :
    objectiveFunctionGradient env st xc nb =
      Except.ok
        (normalizeIf env.norm nb
          (rawGrad env
            ⟨BaseClf.surrogate, BaseTr.surrogateData,
             st.selfXc.set (st.selfIdx.getD 0) (xc.headD []), st.selfYc⟩
            ((st.selfXc.set (st.selfIdx.getD 0) (xc.headD [])).getD (st.selfIdx.getD 0) [])
            (st.selfYc.getD (st.selfIdx.getD 0) 0)),
         { st with
             selfXc := st.selfXc.set (st.selfIdx.getD 0) (xc.headD []),
             xcHash := some (st.selfXc.set (st.selfIdx.getD 0) (xc.headD [])),
             poisonedClf :=
               some ⟨BaseClf.surrogate, BaseTr.surrogateData,
                 st.selfXc.set (st.selfIdx.getD 0) (xc.headD []), st.selfYc⟩ }) := by
  simp only [objectiveFunctionGradient]
  rw [if_neg hlen]
  rw [updatePoisonedClf_miss _ none none hmiss]
  rfl

theorem normalizeIf_false (nf : Vec α → α) (g : Vec α) :
    normalizeIf nf false g = g := by
  simp [normalizeIf]

theorem objGrad_true_of_false (env : PEnv α) (st : PState α) (xc : Mat α)
    (graw : Vec α) (st' : PState α)
    (hfalse : objectiveFunctionGradient env st xc false = Except.ok (graw, st')) :
    objectiveFunctionGradient env st xc true =
      Except.ok (normalizeIf env.norm true graw, st') := by
  simp only [objectiveFunctionGradient] at hfalse ⊢
  by_cases hl : 1 < xc.length
  · rw [if_pos hl] at hfalse
    exact absurd hfalse (by simp)
  · rw [if_neg hl] at hfalse ⊢
    rcases hr : (updatePoisonedClf
        { st with selfXc := st.selfXc.set (st.selfIdx.getD 0) (xc.headD []) }
        none none).1 with _ | clf
    · rw [hr] at hfalse
      exact absurd hfalse (by simp)
    · rw [hr] at hfalse
      simp only [normalizeIf_false, Except.ok.injEq, Prod.mk.injEq] at hfalse
      rw [← hfalse.1, ← hfalse.2]

/-- Claim C7: the objective-gradient operation with normalization enabled
returns a vector of Euclidean norm 1 whenever the raw computed gradient is
nonzero, and returns the raw zero vector unchanged when the raw gradient is
exactly zero.  The raw gradient is named by the same call with
normalization disabled; `CArray.norm` (array library, outside the staged
sources) is characterized per the spec as the Euclidean norm at the two
vectors involved: nonnegative, with square equal to the sum of squares. -/
theorem objectiveGradientNormalization (env : PEnv α) (st : PState α) (xc : Mat α)
    (graw : Vec α) (st' : PState α)
    (hfalse : objectiveFunctionGradient env st xc false = Except.ok (graw, st'))
    (hnn : 0 ≤ env.norm graw)
    (hsq : env.norm graw * env.norm graw = sumSq graw)
    (hnn2 : 0 ≤ env.norm (graw.map (fun x => x / env.norm graw)))
    (hsq2 : env.norm (graw.map (fun x => x / env.norm graw)) *
            env.norm (graw.map (fun x => x / env.norm graw)) =
            sumSq (graw.map (fun x => x / env.norm graw))) :
    ((¬ ∀ x ∈ graw, x = 0) →
       objectiveFunctionGradient env st xc true =
         Except.ok (graw.map (fun x => x / env.norm graw), st') ∧
       env.norm (graw.map (fun x => x / env.norm graw)) = 1) ∧
    ((∀ x ∈ graw, x = 0) →
       objectiveFunctionGradient env st xc true = Except.ok (graw, st')) := by
  have htrue := objGrad_true_of_false env st xc graw st' hfalse
  constructor
  · intro hnz
    have hspos : 0 < sumSq graw := by
      rcases lt_or_eq_of_le (sumSq_nonneg graw) with h | h
      · exact h
      · exact absurd ((sumSq_eq_zero_iff graw).mp h.symm) hnz
    have hnpos : 0 < env.norm graw := by
      rcases lt_or_eq_of_le hnn with h | h
      · exact h
      · rw [← h, mul_zero] at hsq
        rw [← hsq] at hspos
        exact absurd hspos (lt_irrefl 0)
    constructor
    · rw [htrue]
      simp [normalizeIf, hnpos]
    · have h1 : sumSq (graw.map (fun x => x / env.norm graw)) = 1 := by
        rw [sumSq_map_div, hsq, div_self (ne_of_gt hspos)]
      rw [h1] at hsq2
      rcases mul_self_eq_one_iff.mp hsq2 with h | h
      · exact h
      · rw [h] at hnn2
        exact absurd hnn2 (by norm_num)
  · intro hz
    have h0 : sumSq graw = 0 := (sumSq_eq_zero_iff graw).mpr hz
    have hn0 : env.norm graw = 0 := mul_self_eq_zero.mp (hsq.trans h0)
    rw [htrue]
    simp [normalizeIf, hn0]

theorem objGradFalseG :
    objectiveFunctionGradient envG stG [[1, 2]] false = Except.ok ([3, 4], stG') := by
  rw [objectiveFunctionGradient_eval envG stG [[1, 2]] false (by norm_num)
    (by simp [stG])]
  simp [envG, stG, stG', rawGrad, normalizeIf]

theorem objectiveGradientNormalization_witness :
    ((¬ ∀ x ∈ ([3, 4] : Vec ℚ), x = 0) →
       objectiveFunctionGradient envG stG [[1, 2]] true =
         Except.ok (([3, 4] : Vec ℚ).map (fun x => x / envG.norm [3, 4]), stG') ∧
       envG.norm (([3, 4] : Vec ℚ).map (fun x => x / envG.norm [3, 4])) = 1) ∧
    ((∀ x ∈ ([3, 4] : Vec ℚ), x = 0) →
       objectiveFunctionGradient envG stG [[1, 2]] true = Except.ok ([3, 4], stG')) :=
  objectiveGradientNormalization envG stG [[1, 2]] [3, 4] stG'
    objGradFalseG
    (by norm_num [envG, normW])
    (by norm_num [envG, normW, sumSq])
    (by norm_num [envG, normW])
    (by norm_num [envG, normW, sumSq])

/-- Claim C10: when no active point index has been set (`self._idx` is
`None`), both the objective and the objective-gradient operations default
to poisoning point index 0 — they write the candidate features into row 0
of the poisoning-point matrix, evaluate with respect to that point exactly
as an explicit index 0 would, and do not fail. -/
theorem objectiveDefaultsToIndexZero (env : PEnv α) (st : PState α) (xc : Mat α)
    (acc nb : Bool) (hidx : st.selfIdx = none) (hlen : xc.length ≤ 1)
    (hhash : st.xcHash = none) :
    (∃ v st2, objectiveFunction env st xc acc = Except.ok (v, st2) ∧
       st2.selfXc = st.selfXc.set 0 (xc.headD []) ∧
       objectiveFunction env { st with selfIdx := some 0 } xc acc =
         Except.ok (v, { st2 with selfIdx := some 0 })) ∧
    (∃ g st3, objectiveFunctionGradient env st xc nb = Except.ok (g, st3) ∧
       st3.selfXc = st.selfXc.set 0 (xc.headD []) ∧
       objectiveFunctionGradient env { st with selfIdx := some 0 } xc nb =
         Except.ok (g, { st3 with selfIdx := some 0 })) := by
  have hlen' : ¬ 1 < xc.length := by omega
  have hmissA : st.xcHash ≠ some (st.selfXc.set (st.selfIdx.getD 0) (xc.headD [])) := by
    rw [hhash]
    exact fun h => Option.noConfusion h
  have hmissB : ({ st with selfIdx := some 0 } : PState α).xcHash ≠
      some (({ st with selfIdx := some 0 } : PState α).selfXc.set
        (({ st with selfIdx := some 0 } : PState α).selfIdx.getD 0) (xc.headD [])) := by
    show st.xcHash ≠ _
    rw [hhash]
    exact fun h => Option.noConfusion h
  have hA := objectiveFunction_eval env st xc acc hlen' hmissA
  have hB := objectiveFunction_eval env { st with selfIdx := some 0 } xc acc hlen' hmissB
  have hC := objectiveFunctionGradient_eval env st xc nb hlen' hmissA
  have hD := objectiveFunctionGradient_eval env { st with selfIdx := some 0 } xc nb
    hlen' hmissB
  simp only [hidx, Option.getD_none] at hA hC
  constructor
  · exact ⟨_, _, hA, rfl, hB⟩
  · exact ⟨_, _, hC, rfl, hD⟩

theorem objectiveDefaultsToIndexZero_witness :
    (∃ v st2, objectiveFunction envG stG [[1, 2]] false = Except.ok (v, st2) ∧
       st2.selfXc = stG.selfXc.set 0 (([[1, 2]] : Mat ℚ).headD []) ∧
       objectiveFunction envG { stG with selfIdx := some 0 } [[1, 2]] false =
         Except.ok (v, { st2 with selfIdx := some 0 })) ∧
    (∃ g st3, objectiveFunctionGradient envG stG [[1, 2]] false = Except.ok (g, st3) ∧
       st3.selfXc = stG.selfXc.set 0 (([[1, 2]] : Mat ℚ).headD []) ∧
       objectiveFunctionGradient envG { stG with selfIdx := some 0 } [[1, 2]] false =
         Except.ok (g, { st3 with selfIdx := some 0 })) :=
  objectiveDefaultsToIndexZero envG stG [[1, 2]] false false rfl (by decide) rfl

theorem runFinalizationSkipsTargetRetraining_witness :
    refitCount BaseClf.target runResQ.events = 0 ∧
    ∃ c : FittedClf ℚ, runResQ.predFrom = PredFrom.fitted c ∧
      c.base = BaseClf.surrogate ∧ c.tr = BaseTr.surrogateData :=
  runFinalizationSkipsTargetRetraining envQ (initialState ℚ) 1 1 none runResQ
    one_ne_zero (Or.inl rfl) rfl (fun ci x0 => by simp [envQ]) (runQ 1)

/-- Claim C6 (counterexample): with a single poisoning point and
`max_iter = 0`, the loop still executes one full round, so "at most
max_iter full rounds" fails as stated. -/
theorem runRoundBudget_counterexample :
    (run envQ (initialState ℚ) (some 1) InitType.random none 0).toOption.map
      (fun r => roundCount r.events) = some 1 ∧ ¬ ((1 : ℕ) ≤ 0) := by
  constructor
  · rw [runQ 0]
    rfl
  · decide

theorem runRoundBudgetAmended_witness :
    (roundCount runResQ.events ≤ if 1 = 1 then 1 else 5) ∧
    ((1 : ℕ) = 1 → roundCount runResQ.events = 1 ∧ optIndices runResQ.events = [0]) ∧
    (∀ (rem ci : ℕ) (xc : Mat ℚ) (yc : List ℕ) (st' : PState ℚ),
      matDiffSq xc (oneRound envQ 1 yc ci xc st').1 = 0 →
      outerRounds envQ 1 yc (rem + 1) ci xc st' = oneRound envQ 1 yc ci xc st') :=
  runRoundBudgetAmended envQ (initialState ℚ) 1 5 none runResQ (runQ 5)

theorem cacheRefitExactlyOnChange_witness :
    updatePoisonedClf (updatePoisonedClf stG none none).2.1 none none =
      ((updatePoisonedClf stG none none).1,
       (updatePoisonedClf stG none none).2.1, false) ∧
    (updatePoisonedClf
        { (updatePoisonedClf stG none none).2.1 with
            selfXc := setEntry stG.selfXc 0 0 1 } none none).2.2 = true ∧
    (updatePoisonedClf
        (updatePoisonedClf
          { (updatePoisonedClf stG none none).2.1 with
              selfXc := setEntry stG.selfXc 0 0 1 } none none).2.1 none none).2.2 =
      false :=
  cacheRefitExactlyOnChange stG 0 0 1 (by decide) (by decide) (by decide)

end SecML
